import Mathlib

/- Verification model of the CFTP lozenge-tiling sampler in `misc/cftp.py`:
   the generic driver `run_cftp` and the `LozengeTiling` Markov chain
   (`min_max_states`, `new_random_update`'s update descriptors, `update`,
   `get_tiles`), together with the state invariants and partial order that
   the specification attributes to them. -/

/-- A path-system state: `s k j` is the height of path `k` at position `j`.
Python stores this as a `(c+2) × (a+b+1)` list of lists of integers mutated in
place; here it is a total function, and every theorem restricts its indices to
the grid `k ∈ [0, c+1]`, `j ∈ [0, a+b]` that the lists actually hold. -/
def State : Type := Nat → Nat → Int

namespace LozengeTiling

/-- Embedding of `LozengeTiling.update(self, s, u)`: `u = (k, j, dy)`.
If `dy == 1` it tries to push up: if
`s[k][j-1] == s[k][j] < s[k][j+1] < s[k+1][j]` then `s[k][j] += 1`.
Otherwise it tries to push down: if
`s[k-1][j] < s[k][j-1] < s[k][j] == s[k][j+1]` then `s[k][j] -= 1`.
The in-place assignment becomes a pointwise function override. -/
def update (s : State) : Nat × Nat × Nat → State
  | (k, j, dy) =>
    if dy = 1 then
      if s k (j - 1) = s k j ∧ s k j < s k (j + 1) ∧ s k (j + 1) < s (k + 1) j then
        fun k' j' => if k' = k ∧ j' = j then s k j + 1 else s k' j'
      else s
    else
      if s (k - 1) j < s k (j - 1) ∧ s k (j - 1) < s k j ∧ s k j = s k (j + 1) then
        fun k' j' => if k' = k ∧ j' = j then s k j - 1 else s k' j'
      else s

/-- Embedding of `LozengeTiling.min_max_states(self)` for size `(a, b, c)`:
`s0[k][j] = max(j - a, 0)` if `k == 0` else `k + min(j, b)`, and
`s1[k][j] = c + 1 + min(j, b)` if `k == c + 1` else `k + max(j - a, 0)`,
for `k in range(c + 2)`, `j in range(a + b + 1)`. -/
def min_max_states (a b c : Nat) : State × State :=
  (fun k j => if k = 0 then max ((j : Int) - a) 0 else (k : Int) + min (j : Int) b,
   fun k j => if k = c + 1 then (c : Int) + 1 + min (j : Int) b
              else (k : Int) + max ((j : Int) - a) 0)

/-- Path monotonicity (§3): for fixed `k`, the height is nondecreasing in `j`
and increases by at most 1 per step, across the grid. -/
def pathMono (a b c : Nat) (s : State) : Prop :=
  ∀ k < c + 2, ∀ j < a + b, s k j ≤ s k (j + 1) ∧ s k (j + 1) ≤ s k j + 1

/-- Non-crossing (§3): for fixed `j`, `s k j ≤ s (k+1) j` for all `k`. -/
def nonCrossing (a b c : Nat) (s : State) : Prop :=
  ∀ k < c + 1, ∀ j < a + b + 1, s k j ≤ s (k + 1) j

/-- The §3 state invariants: path monotonicity and non-crossing. -/
def Invariant (a b c : Nat) (s : State) : Prop :=
  pathMono a b c s ∧ nonCrossing a b c s

/-- The §3 partial order on states: pointwise `≤` over the grid. -/
def stateLe (a b c : Nat) (s t : State) : Prop :=
  ∀ k < c + 2, ∀ j < a + b + 1, s k j ≤ t k j

instance (a b c : Nat) (s : State) : Decidable (pathMono a b c s) :=
  inferInstanceAs (Decidable (∀ k < c + 2, ∀ j < a + b,
    s k j ≤ s k (j + 1) ∧ s k (j + 1) ≤ s k j + 1))

instance (a b c : Nat) (s : State) : Decidable (nonCrossing a b c s) :=
  inferInstanceAs (Decidable (∀ k < c + 1, ∀ j < a + b + 1, s k j ≤ s (k + 1) j))

instance (a b c : Nat) (s : State) : Decidable (Invariant a b c s) :=
  inferInstanceAs (Decidable (pathMono a b c s ∧ nonCrossing a b c s))

instance (a b c : Nat) (s t : State) : Decidable (stateLe a b c s t) :=
  inferInstanceAs (Decidable (∀ k < c + 2, ∀ j < a + b + 1, s k j ≤ t k j))

/-- Vertex offsets of a "L" lozenge in `get_tiles`. -/
def LOffs : List (Int × Int) := [(0, 0), (-1, 0), (-1, -1), (0, -1)]

/-- Vertex offsets of a "R" lozenge in `get_tiles`. -/
def ROffs : List (Int × Int) := [(0, 0), (-1, -1), (-1, -2), (0, -1)]

/-- Vertex offsets of a "T" lozenge in `get_tiles`. -/
def TOffs : List (Int × Int) := [(0, 0), (-1, -1), (0, -1), (1, 0)]

/-- The comprehension `[(j + dx, h + dy) for dx, dy in offs]`. -/
def lozVerts (j h : Int) (offs : List (Int × Int)) : List (Int × Int) :=
  offs.map fun d => (j + d.1, h + d.2)

/-- Python's `range(lo, hi)` on integers, as a list. -/
def intRange (lo hi : Int) : List Int :=
  (List.range (hi - lo).toNat).map fun i => lo + i

/-- The result of `get_tiles`: the dict `{"L": [...], "R": [...], "T": [...]}`. -/
structure Tiles where
  L : List (List (Int × Int))
  R : List (List (Int × Int))
  T : List (List (Int × Int))
deriving DecidableEq

/-- Embedding of `LozengeTiling.get_tiles(self, s)`: for `k in range(c + 1)`
and `j in range(1, a + b + 1)`, when `k > 0` append an "L" lozenge if
`s[k][j] == s[k][j-1]` and otherwise an "R" lozenge, and for every
`l in range(s[k][j] + 1, s[k+1][j])` append a "T" lozenge.  Each of the three
lists receives its appends in loop order, which the flatMap reproduces. -/
def get_tiles (a b c : Nat) (s : State) : Tiles where
  L := (List.range (c + 1)).flatMap fun k => (List.range' 1 (a + b)).flatMap fun j =>
        if 0 < k ∧ s k j = s k (j - 1) then [lozVerts j (s k j) LOffs] else []
  R := (List.range (c + 1)).flatMap fun k => (List.range' 1 (a + b)).flatMap fun j =>
        if 0 < k ∧ ¬s k j = s k (j - 1) then [lozVerts j (s k j) ROffs] else []
  T := (List.range (c + 1)).flatMap fun k => (List.range' 1 (a + b)).flatMap fun j =>
        (intRange (s k j + 1) (s (k + 1) j)).map fun l => lozVerts j l TOffs

/-- Modelled from the spec (§4.4 and claim C8), for comparison with
`get_tiles`: the claim's reading visits every pair `(k in 1..c+1,
j in 1..a+b)`, classifies each into "L" or "R" by whether `s k j` equals
`s k (j-1)`, and appends the vertical lozenges for the gaps above those
same paths `k`. -/
def get_tiles_claim (a b c : Nat) (s : State) : Tiles where
  L := (List.range' 1 (c + 1)).flatMap fun k => (List.range' 1 (a + b)).flatMap fun j =>
        if s k j = s k (j - 1) then [lozVerts j (s k j) LOffs] else []
  R := (List.range' 1 (c + 1)).flatMap fun k => (List.range' 1 (a + b)).flatMap fun j =>
        if ¬s k j = s k (j - 1) then [lozVerts j (s k j) ROffs] else []
  T := (List.range' 1 (c + 1)).flatMap fun k => (List.range' 1 (a + b)).flatMap fun j =>
        (intRange (s k j + 1) (s (k + 1) j)).map fun l => lozVerts j l TOffs

/-- The amended reading of `get_tiles` (claim C8 corrected): classification
runs over `k in 1..c` only, and the vertical lozenges are appended for every
`k in 0..c`, one per level strictly between `s k j` and `s (k+1) j`. -/
def get_tiles_amended (a b c : Nat) (s : State) : Tiles where
  L := (List.range' 1 c).flatMap fun k => (List.range' 1 (a + b)).flatMap fun j =>
        if s k j = s k (j - 1) then [lozVerts j (s k j) LOffs] else []
  R := (List.range' 1 c).flatMap fun k => (List.range' 1 (a + b)).flatMap fun j =>
        if ¬s k j = s k (j - 1) then [lozVerts j (s k j) ROffs] else []
  T := (List.range (c + 1)).flatMap fun k => (List.range' 1 (a + b)).flatMap fun j =>
        (intRange (s k j + 1) (s (k + 1) j)).map fun l => lozVerts j l TOffs

end LozengeTiling

/-- Embedding of `LozengeTiling.__init__(self, size)`: it stores `size`
unchanged.  The `Option` result models Python exceptions (`none` would be a
raised error); the constructor performs no validation and never raises. -/
structure LozengeTilingObj where
  size : Int × Int × Int
deriving DecidableEq

/-- The constructor call `LozengeTiling(size)`. -/
def init (size : Int × Int × Int) : Option LozengeTilingObj :=
  some ⟨size⟩

/-- The interface `run_cftp` expects of its argument `mc` (§4.1): extremal
states, a random update drawn from an explicit random-source state `R`
(Python threads the global `random` module through these calls), and an
update application.  States are compared with `==`. -/
structure MarkovChain (S U R : Type) where
  min_max_states : S × S
  new_random_update : R → U × R
  update : S → U → S

/-- The inner `for _ in range(steps)` loop of `run_cftp`: draw one update and
apply it to both trajectories, threading the random source. -/
def replaySteps {S U R : Type} (mc : MarkovChain S U R) :
    Nat → S × S × R → S × S × R
  | 0, x => x
  | n + 1, (s0, s1, rng) =>
    let ur := mc.new_random_update rng
    replaySteps mc n (mc.update s0 ur.1, mc.update s1 ur.1, ur.2)

/-- The `for rng, steps in updates` loop of `run_cftp`: each epoch restores
its own snapshot `rng` and replays `steps` steps; after the first (oldest)
epoch the random source's state is recorded as `rng_next`. -/
def replayEpochs {S U R : Type} (mc : MarkovChain S U R) :
    List (R × Nat) → S × S × Option R → S × S × Option R
  | [], x => x
  | (rng, steps) :: rest, (s0, s1, rngNext) =>
    let t := replaySteps mc steps (s0, s1, rng)
    replayEpochs mc rest (t.1, t.2.1, some (rngNext.getD t.2.2))

/-- The `while True` loop of `run_cftp`, with explicit fuel (the source has
no bound; `none` models running out of fuel, or `random.setstate(None)` on an
empty epoch list, which cannot occur from `run_cftp`'s initial list).  On
coalescence it returns the coupled state and the resume snapshot that
`random.setstate(rng_next)` installs; on failure it prepends
`(rng_next, 2 ** len(updates))` and loops. -/
def cftpLoop {S U R : Type} [DecidableEq S] (mc : MarkovChain S U R) :
    Nat → List (R × Nat) → Option (S × R)
  | 0, _ => none
  | fuel + 1, updates =>
    let res := replayEpochs mc updates (mc.min_max_states.1, mc.min_max_states.2, none)
    if res.1 = res.2.1 then
      res.2.2.map fun r => (res.1, r)
    else
      match res.2.2 with
      | some r => cftpLoop mc fuel ((r, 2 ^ updates.length) :: updates)
      | none => none

/-- Embedding of `run_cftp(mc)`: start from the single epoch
`[(random.getstate(), 1)]`. -/
def run_cftp {S U R : Type} [DecidableEq S] (mc : MarkovChain S U R)
    (fuel : Nat) (rng0 : R) : Option (S × R) :=
  cftpLoop mc fuel [(rng0, 1)]

/-- Total step count of an epoch list. -/
def totalSteps {R : Type} (updates : List (R × Nat)) : Nat :=
  (updates.map Prod.snd).sum

/-- Modelled from the spec (claim C4), for comparison with `cftpLoop`: on
failure prepend an epoch whose step count is double the total steps taken
across all existing epochs. -/
def cftpLoopClaim {S U R : Type} [DecidableEq S] (mc : MarkovChain S U R) :
    Nat → List (R × Nat) → Option (S × R)
  | 0, _ => none
  | fuel + 1, updates =>
    let res := replayEpochs mc updates (mc.min_max_states.1, mc.min_max_states.2, none)
    if res.1 = res.2.1 then
      res.2.2.map fun r => (res.1, r)
    else
      match res.2.2 with
      | some r => cftpLoopClaim mc fuel ((r, 2 * totalSteps updates) :: updates)
      | none => none

/-- Modelled from the spec (claim C4): `run_cftp` with the claimed
doubled-total schedule. -/
def run_cftpClaim {S U R : Type} [DecidableEq S] (mc : MarkovChain S U R)
    (fuel : Nat) (rng0 : R) : Option (S × R) :=
  cftpLoopClaim mc fuel [(rng0, 1)]

/-- The step counts `[2 ^ (n-1), ..., 4, 2, 1]` of the doubling schedule. -/
def powersDesc (n : Nat) : List Nat :=
  (List.range n).reverse.map fun i => 2 ^ i

/-- A small concrete monotone chain used to exercise `run_cftp`: states are
`0..5` with extremes `0` and `5`, each update moves a state one step toward
`5`, and the random source is a counter advanced once per drawn update. -/
def toyMC : MarkovChain Nat Unit Nat where
  min_max_states := (0, 5)
  new_random_update := fun r => ((), r + 1)
  update := fun s _ => min (s + 1) 5

/-- Cells other than `(k, j)` are untouched by `update`. -/
theorem update_apply_ne (s : State) (k j dy k' j' : Nat) (h : ¬(k' = k ∧ j' = j)) :
    LozengeTiling.update s (k, j, dy) k' j' = s k' j' := by
  simp only [LozengeTiling.update]
  split_ifs <;> simp [h]

/-- Value of the cell `(k, j)` after a push-up attempt. -/
theorem update_apply_point_up (s : State) (k j : Nat) :
    LozengeTiling.update s (k, j, 1) k j =
      if s k (j - 1) = s k j ∧ s k j < s k (j + 1) ∧ s k (j + 1) < s (k + 1) j then
        s k j + 1
      else s k j := by
  simp only [LozengeTiling.update]
  split_ifs <;> simp_all

/-- Value of the cell `(k, j)` after a push-down attempt (any `dy ≠ 1`). -/
theorem update_apply_point_down (s : State) (k j dy : Nat) (hdy : dy ≠ 1) :
    LozengeTiling.update s (k, j, dy) k j =
      if s (k - 1) j < s k (j - 1) ∧ s k (j - 1) < s k j ∧ s k j = s k (j + 1) then
        s k j - 1
      else s k j := by
  simp only [LozengeTiling.update]
  split_ifs <;> simp_all

/-- A failed push-up returns the state object itself. -/
theorem update_noop_up (s : State) (k j : Nat)
    (h : ¬(s k (j - 1) = s k j ∧ s k j < s k (j + 1) ∧ s k (j + 1) < s (k + 1) j)) :
    LozengeTiling.update s (k, j, 1) = s := by
  simp only [LozengeTiling.update]
  split_ifs <;> simp_all

/-- A failed push-down returns the state object itself. -/
theorem update_noop_down (s : State) (k j dy : Nat) (hdy : dy ≠ 1)
    (h : ¬(s (k - 1) j < s k (j - 1) ∧ s k (j - 1) < s k j ∧ s k j = s k (j + 1))) :
    LozengeTiling.update s (k, j, dy) = s := by
  simp only [LozengeTiling.update]
  split_ifs <;> simp_all

/-- C5: the update rule is exact: a push up at `(k, j)` increments `s k j` by
exactly 1 iff `s[k][j-1] == s[k][j] < s[k][j+1] < s[k+1][j]`, and a push down
decrements it by exactly 1 iff `s[k-1][j] < s[k][j-1] < s[k][j] == s[k][j+1]`. -/
theorem update_rule_exact (s : State) (k j : Nat) (hk : 1 ≤ k) (hj : 1 ≤ j) :
    (LozengeTiling.update s (k, j, 1) k j = s k j + 1 ↔
      (s k (j - 1) = s k j ∧ s k j < s k (j + 1) ∧ s k (j + 1) < s (k + 1) j)) ∧
    (LozengeTiling.update s (k, j, 0) k j = s k j - 1 ↔
      (s (k - 1) j < s k (j - 1) ∧ s k (j - 1) < s k j ∧ s k j = s k (j + 1))) := by
  constructor
  · rw [update_apply_point_up]
    split_ifs with h
    · exact iff_of_true rfl h
    · simp only [h, iff_false]
      omega
  · rw [update_apply_point_down s k j 0 (by omega)]
    split_ifs with h
    · exact iff_of_true rfl h
    · simp only [h, iff_false]
      omega

/-- Witness for C5 at the minimum state of the 1×1×1 hexagon with `k = j = 1`. -/
theorem update_rule_exact_witness :
    (LozengeTiling.update (LozengeTiling.min_max_states 1 1 1).1 (1, 1, 1) 1 1 =
        (LozengeTiling.min_max_states 1 1 1).1 1 1 + 1 ↔
      ((LozengeTiling.min_max_states 1 1 1).1 1 0 = (LozengeTiling.min_max_states 1 1 1).1 1 1 ∧
       (LozengeTiling.min_max_states 1 1 1).1 1 1 < (LozengeTiling.min_max_states 1 1 1).1 1 2 ∧
       (LozengeTiling.min_max_states 1 1 1).1 1 2 < (LozengeTiling.min_max_states 1 1 1).1 2 1)) ∧
    (LozengeTiling.update (LozengeTiling.min_max_states 1 1 1).1 (1, 1, 0) 1 1 =
        (LozengeTiling.min_max_states 1 1 1).1 1 1 - 1 ↔
      ((LozengeTiling.min_max_states 1 1 1).1 0 1 < (LozengeTiling.min_max_states 1 1 1).1 1 0 ∧
       (LozengeTiling.min_max_states 1 1 1).1 1 0 < (LozengeTiling.min_max_states 1 1 1).1 1 1 ∧
       (LozengeTiling.min_max_states 1 1 1).1 1 1 = (LozengeTiling.min_max_states 1 1 1).1 1 2)) :=
  update_rule_exact (LozengeTiling.min_max_states 1 1 1).1 1 1 (by decide) (by decide)

/-- C7: an update whose legality condition fails leaves the state entirely
unchanged: the updated state is the very same function. -/
theorem illegal_update_noop (s : State) (k j dy : Nat)
    (hup : dy = 1 →
      ¬(s k (j - 1) = s k j ∧ s k j < s k (j + 1) ∧ s k (j + 1) < s (k + 1) j))
    (hdown : dy ≠ 1 →
      ¬(s (k - 1) j < s k (j - 1) ∧ s k (j - 1) < s k j ∧ s k j = s k (j + 1))) :
    LozengeTiling.update s (k, j, dy) = s := by
  by_cases hdy : dy = 1
  · subst hdy
    exact update_noop_up s k j (hup rfl)
  · exact update_noop_down s k j dy hdy (hdown hdy)

/-- Witness for C7: at the minimum state of the 1×1×1 hexagon, the update
`(1, 2, 0)` is illegal in both directions and is a no-op. -/
theorem illegal_update_noop_witness :
    LozengeTiling.update (LozengeTiling.min_max_states 1 1 1).1 (1, 2, 0) =
      (LozengeTiling.min_max_states 1 1 1).1 :=
  illegal_update_noop (LozengeTiling.min_max_states 1 1 1).1 1 2 0
    (by decide) (by decide)

/-- C10: `update` modifies at most the single cell `(k, j)`, and moves it by
at most 1; every other cell, in particular every cell of the boundary paths,
keeps its value. -/
theorem update_frame (s : State) (k j dy k' j' : Nat) :
    (LozengeTiling.update s (k, j, dy) k' j' = s k' j' ∨ (k' = k ∧ j' = j)) ∧
    s k j - 1 ≤ LozengeTiling.update s (k, j, dy) k j ∧
    LozengeTiling.update s (k, j, dy) k j ≤ s k j + 1 := by
  refine ⟨?_, ?_⟩
  · by_cases h : k' = k ∧ j' = j
    · exact Or.inr h
    · exact Or.inl (update_apply_ne s k j dy k' j' h)
  · by_cases hdy : dy = 1
    · subst hdy
      rw [update_apply_point_up]
      split_ifs <;> omega
    · rw [update_apply_point_down s k j dy hdy]
      split_ifs <;> omega

/-- C9 counterexample: constructing the chain with the non-positive size
`(0, 0, 0)` is not rejected; it produces a chain object storing that size. -/
theorem init_accepts_nonpositive : init (0, 0, 0) = some ⟨(0, 0, 0)⟩ := rfl

/-- C9 amended: the constructor performs no validation: for every size,
including non-positive ones, it succeeds and stores the size unchanged. -/
theorem init_stores_size : ∀ size : Int × Int × Int, init size = some ⟨size⟩ :=
  fun _ => rfl

/-- C3 counterexample: for the 1×1×1 hexagon the pair `(s0, s1)` returned by
`min_max_states` has `s0[1][1] = 2 > 1 = s1[1][1]`, so `s0 ≤ s1` fails
pointwise on the grid. -/
theorem min_max_states_not_ordered :
    ¬((LozengeTiling.min_max_states 1 1 1).1 1 1 ≤
      (LozengeTiling.min_max_states 1 1 1).2 1 1) := by
  decide

/-- C3 amended: for all positive side lengths the pair `(s0, s1)` returned by
`min_max_states` is ordered the other way round, `s1 ≤ s0` pointwise on the
grid, and both states satisfy the §3 invariants. -/
theorem min_max_states_ordered_invariant (a b c : Nat)
    (ha : 0 < a) (hb : 0 < b) (hc : 0 < c) :
    LozengeTiling.stateLe a b c (LozengeTiling.min_max_states a b c).2
      (LozengeTiling.min_max_states a b c).1 ∧
    LozengeTiling.Invariant a b c (LozengeTiling.min_max_states a b c).1 ∧
    LozengeTiling.Invariant a b c (LozengeTiling.min_max_states a b c).2 := by
  refine ⟨?_, ⟨?_, ?_⟩, ⟨?_, ?_⟩⟩ <;> intro k hk j hj <;>
    simp [LozengeTiling.min_max_states, min_def, max_def] <;>
    split_ifs <;> omega

/-- Witness for C3 (amended) at `a = b = c = 1`. -/
theorem min_max_states_ordered_invariant_witness :
    LozengeTiling.stateLe 1 1 1 (LozengeTiling.min_max_states 1 1 1).2
      (LozengeTiling.min_max_states 1 1 1).1 ∧
    LozengeTiling.Invariant 1 1 1 (LozengeTiling.min_max_states 1 1 1).1 ∧
    LozengeTiling.Invariant 1 1 1 (LozengeTiling.min_max_states 1 1 1).2 :=
  min_max_states_ordered_invariant 1 1 1 (by decide) (by decide) (by decide)

/-- C6: the closed forms of the extremal states: the minimum state has
`s0 0 j = max (j - a) 0` and `s0 k j = k + min j b` for `k = 1..c`, and the
maximum state has `s1 (c+1) j = c + 1 + min j b` and `s1 k j = k + max (j - a) 0`
for the other paths `k = 0..c`, for every `j ≤ a + b`. -/
theorem min_max_closed_forms (a b c k j : Nat) (hj : j ≤ a + b) :
    ((LozengeTiling.min_max_states a b c).1 0 j = max ((j : Int) - a) 0) ∧
    (1 ≤ k → k ≤ c →
      (LozengeTiling.min_max_states a b c).1 k j = (k : Int) + min (j : Int) b) ∧
    ((LozengeTiling.min_max_states a b c).2 (c + 1) j =
      (c : Int) + 1 + min (j : Int) b) ∧
    (k ≤ c →
      (LozengeTiling.min_max_states a b c).2 k j = (k : Int) + max ((j : Int) - a) 0) := by
  refine ⟨?_, fun hk1 hkc => ?_, ?_, fun hkc => ?_⟩ <;>
    simp only [LozengeTiling.min_max_states]
  · simp
  · rw [if_neg (by omega)]
  · simp
  · rw [if_neg (by omega)]

/-- Witness for C6 at `a = b = c = 1`, `k = 1`, `j = 1`. -/
theorem min_max_closed_forms_witness :
    ((LozengeTiling.min_max_states 1 1 1).1 0 1 = max ((1 : Int) - 1) 0) ∧
    (1 ≤ 1 → 1 ≤ 1 →
      (LozengeTiling.min_max_states 1 1 1).1 1 1 = (1 : Int) + min (1 : Int) 1) ∧
    ((LozengeTiling.min_max_states 1 1 1).2 (1 + 1) 1 =
      (1 : Int) + 1 + min (1 : Int) 1) ∧
    (1 ≤ 1 →
      (LozengeTiling.min_max_states 1 1 1).2 1 1 = (1 : Int) + max ((1 : Int) - 1) 0) :=
  min_max_closed_forms 1 1 1 1 1 (by decide)

/-- C1: the update rule is monotone: for an update at `(k, j)` in range and two
invariant-satisfying states ordered pointwise on the grid, the updated states
are still ordered pointwise on the grid. -/
theorem update_monotone (a b c : Nat) (s s' : State) (k j dy : Nat)
    (hk1 : 1 ≤ k) (hkc : k ≤ c) (hj1 : 1 ≤ j) (hjb : j ≤ a + b - 1)
    (hs : LozengeTiling.Invariant a b c s) (hs' : LozengeTiling.Invariant a b c s')
    (hle : LozengeTiling.stateLe a b c s s') :
    LozengeTiling.stateLe a b c (LozengeTiling.update s (k, j, dy))
      (LozengeTiling.update s' (k, j, dy)) := by
  obtain ⟨hm, hcr⟩ := hs
  obtain ⟨hm', hcr'⟩ := hs'
  have hjab : j + 1 ≤ a + b := by omega
  have e1 : j - 1 + 1 = j := by omega
  have e2 : k - 1 + 1 = k := by omega
  have ms1 : s k (j - 1) ≤ s k j ∧ s k j ≤ s k (j - 1) + 1 := by
    have h := hm k (by omega) (j - 1) (by omega)
    rwa [e1] at h
  have ms2 : s k j ≤ s k (j + 1) ∧ s k (j + 1) ≤ s k j + 1 := hm k (by omega) j (by omega)
  have ms1' : s' k (j - 1) ≤ s' k j ∧ s' k j ≤ s' k (j - 1) + 1 := by
    have h := hm' k (by omega) (j - 1) (by omega)
    rwa [e1] at h
  have ms2' : s' k j ≤ s' k (j + 1) ∧ s' k (j + 1) ≤ s' k j + 1 :=
    hm' k (by omega) j (by omega)
  have nc1 : s (k - 1) j ≤ s k j := by
    have h := hcr (k - 1) (by omega) j (by omega)
    rwa [e2] at h
  have nc2 : s k j ≤ s (k + 1) j := hcr k (by omega) j (by omega)
  have nc1' : s' (k - 1) j ≤ s' k j := by
    have h := hcr' (k - 1) (by omega) j (by omega)
    rwa [e2] at h
  have nc2' : s' k j ≤ s' (k + 1) j := hcr' k (by omega) j (by omega)
  have le1 : s (k - 1) j ≤ s' (k - 1) j := hle (k - 1) (by omega) j (by omega)
  have le2 : s k (j - 1) ≤ s' k (j - 1) := hle k (by omega) (j - 1) (by omega)
  have le3 : s k j ≤ s' k j := hle k (by omega) j (by omega)
  have le4 : s k (j + 1) ≤ s' k (j + 1) := hle k (by omega) (j + 1) (by omega)
  have le5 : s (k + 1) j ≤ s' (k + 1) j := hle (k + 1) (by omega) j (by omega)
  intro k' hk' j' hj'
  by_cases hpt : k' = k ∧ j' = j
  case neg =>
    rw [update_apply_ne s k j dy k' j' hpt, update_apply_ne s' k j dy k' j' hpt]
    exact hle k' hk' j' hj'
  case pos =>
    obtain ⟨hpk, hpj⟩ := hpt
    rw [hpk, hpj]
    by_cases hdy : dy = 1
    · subst hdy
      rw [update_apply_point_up, update_apply_point_up]
      by_cases hcs : s k (j - 1) = s k j ∧ s k j < s k (j + 1) ∧ s k (j + 1) < s (k + 1) j
      · by_cases hcs' :
            s' k (j - 1) = s' k j ∧ s' k j < s' k (j + 1) ∧ s' k (j + 1) < s' (k + 1) j
        · rw [if_pos hcs, if_pos hcs']
          omega
        · rw [if_pos hcs, if_neg hcs']
          obtain ⟨h1, h2, h3⟩ := hcs
          rcases not_and_or.mp hcs' with h4 | h56
          · omega
          · rcases not_and_or.mp h56 with h5 | h6 <;> omega
      · rw [if_neg hcs]
        by_cases hcs' :
            s' k (j - 1) = s' k j ∧ s' k j < s' k (j + 1) ∧ s' k (j + 1) < s' (k + 1) j
        · rw [if_pos hcs']
          omega
        · rw [if_neg hcs']
          omega
    · rw [update_apply_point_down s k j dy hdy, update_apply_point_down s' k j dy hdy]
      by_cases hcs' :
          s' (k - 1) j < s' k (j - 1) ∧ s' k (j - 1) < s' k j ∧ s' k j = s' k (j + 1)
      · rw [if_pos hcs']
        by_cases hcs : s (k - 1) j < s k (j - 1) ∧ s k (j - 1) < s k j ∧ s k j = s k (j + 1)
        · rw [if_pos hcs]
          omega
        · rw [if_neg hcs]
          obtain ⟨h1, h2, h3⟩ := hcs'
          rcases not_and_or.mp hcs with h4 | h56
          · omega
          · rcases not_and_or.mp h56 with h5 | h6 <;> omega
      · rw [if_neg hcs']
        by_cases hcs : s (k - 1) j < s k (j - 1) ∧ s k (j - 1) < s k j ∧ s k j = s k (j + 1)
        · rw [if_pos hcs]
          omega
        · rw [if_neg hcs]
          omega

/-- C2: the update rule preserves the §3 invariants: if `s` satisfies path
monotonicity and non-crossing and the update indices are in range, then the
updated state satisfies both invariants. -/
theorem update_preserves_invariant (a b c : Nat) (s : State) (k j dy : Nat)
    (hk1 : 1 ≤ k) (hkc : k ≤ c) (hj1 : 1 ≤ j) (hjb : j ≤ a + b - 1)
    (hs : LozengeTiling.Invariant a b c s) :
    LozengeTiling.Invariant a b c (LozengeTiling.update s (k, j, dy)) := by
  obtain ⟨hm, hcr⟩ := hs
  have hjab : j + 1 ≤ a + b := by omega
  have e1 : j - 1 + 1 = j := by omega
  have e2 : k - 1 + 1 = k := by omega
  have ms1 : s k (j - 1) ≤ s k j ∧ s k j ≤ s k (j - 1) + 1 := by
    have h := hm k (by omega) (j - 1) (by omega)
    rwa [e1] at h
  have ms2 : s k j ≤ s k (j + 1) ∧ s k (j + 1) ≤ s k j + 1 := hm k (by omega) j (by omega)
  have nc1 : s (k - 1) j ≤ s k j := by
    have h := hcr (k - 1) (by omega) j (by omega)
    rwa [e2] at h
  have nc2 : s k j ≤ s (k + 1) j := hcr k (by omega) j (by omega)
  by_cases hdy : dy = 1
  · subst hdy
    by_cases hcond : s k (j - 1) = s k j ∧ s k j < s k (j + 1) ∧ s k (j + 1) < s (k + 1) j
    case neg =>
      rw [update_noop_up s k j hcond]
      exact ⟨hm, hcr⟩
    case pos =>
      have tpt : LozengeTiling.update s (k, j, 1) k j = s k j + 1 := by
        rw [update_apply_point_up, if_pos hcond]
      obtain ⟨cA, cB, cC⟩ := hcond
      constructor
      · intro k'' hk'' j'' hj''
        have base := hm k'' hk'' j'' hj''
        by_cases h1 : k'' = k ∧ j'' = j
        · obtain ⟨hpk, hpj⟩ := h1
          rw [hpk, hpj, tpt, update_apply_ne s k j 1 k (j + 1) (by omega)]
          omega
        · by_cases h2 : k'' = k ∧ j'' + 1 = j
          · obtain ⟨hpk, hj2⟩ := h2
            rw [hpk, update_apply_ne s k j 1 k j'' (by omega), hj2, tpt,
              show j'' = j - 1 by omega]
            omega
          · rw [update_apply_ne s k j 1 k'' j'' h1, update_apply_ne s k j 1 k'' (j'' + 1) h2]
            exact base
      · intro k'' hk'' j'' hj''
        have base := hcr k'' hk'' j'' hj''
        by_cases h1 : k'' = k ∧ j'' = j
        · obtain ⟨hpk, hpj⟩ := h1
          rw [hpk, hpj, tpt, update_apply_ne s k j 1 (k + 1) j (by omega)]
          omega
        · by_cases h2 : k'' + 1 = k ∧ j'' = j
          · obtain ⟨hk2, hpj⟩ := h2
            rw [hpj] at base ⊢
            rw [update_apply_ne s k j 1 k'' j (by omega), hk2, tpt]
            rw [hk2] at base
            omega
          · rw [update_apply_ne s k j 1 k'' j'' h1,
              update_apply_ne s k j 1 (k'' + 1) j'' (by tauto)]
            exact base
  · by_cases hcond : s (k - 1) j < s k (j - 1) ∧ s k (j - 1) < s k j ∧ s k j = s k (j + 1)
    case neg =>
      rw [update_noop_down s k j dy hdy hcond]
      exact ⟨hm, hcr⟩
    case pos =>
      have tpt : LozengeTiling.update s (k, j, dy) k j = s k j - 1 := by
        rw [update_apply_point_down s k j dy hdy, if_pos hcond]
      obtain ⟨cA, cB, cC⟩ := hcond
      constructor
      · intro k'' hk'' j'' hj''
        have base := hm k'' hk'' j'' hj''
        by_cases h1 : k'' = k ∧ j'' = j
        · obtain ⟨hpk, hpj⟩ := h1
          rw [hpk, hpj, tpt, update_apply_ne s k j dy k (j + 1) (by omega)]
          omega
        · by_cases h2 : k'' = k ∧ j'' + 1 = j
          · obtain ⟨hpk, hj2⟩ := h2
            rw [hpk, update_apply_ne s k j dy k j'' (by omega), hj2, tpt,
              show j'' = j - 1 by omega]
            omega
          · rw [update_apply_ne s k j dy k'' j'' h1,
              update_apply_ne s k j dy k'' (j'' + 1) h2]
            exact base
      · intro k'' hk'' j'' hj''
        have base := hcr k'' hk'' j'' hj''
        by_cases h1 : k'' = k ∧ j'' = j
        · obtain ⟨hpk, hpj⟩ := h1
          rw [hpk, hpj, tpt, update_apply_ne s k j dy (k + 1) j (by omega)]
          omega
        · by_cases h2 : k'' + 1 = k ∧ j'' = j
          · obtain ⟨hk2, hpj⟩ := h2
            rw [hpj] at base ⊢
            rw [update_apply_ne s k j dy k'' j (by omega), hk2, tpt,
              show k'' = k - 1 by omega]
            omega
          · rw [update_apply_ne s k j dy k'' j'' h1,
              update_apply_ne s k j dy (k'' + 1) j'' (by tauto)]
            exact base

/-- Witness for C1 at `a = b = c = 1` with the two extremal states (the second
returned state is the pointwise-smaller one) and the update `(1, 1, 1)`. -/
theorem update_monotone_witness :
    LozengeTiling.stateLe 1 1 1
      (LozengeTiling.update (LozengeTiling.min_max_states 1 1 1).2 (1, 1, 1))
      (LozengeTiling.update (LozengeTiling.min_max_states 1 1 1).1 (1, 1, 1)) :=
  update_monotone 1 1 1 (LozengeTiling.min_max_states 1 1 1).2
    (LozengeTiling.min_max_states 1 1 1).1 1 1 1 (by decide) (by decide) (by decide)
    (by decide) (by decide) (by decide) (by decide)

/-- Witness for C2 at `a = b = c = 1`: a legal push down at `(1, 1)` on the
minimum state preserves the invariants. -/
theorem update_preserves_invariant_witness :
    LozengeTiling.Invariant 1 1 1
      (LozengeTiling.update (LozengeTiling.min_max_states 1 1 1).1 (1, 1, 0)) :=
  update_preserves_invariant 1 1 1 (LozengeTiling.min_max_states 1 1 1).1 1 1 0
    (by decide) (by decide) (by decide) (by decide) (by decide)

/-- A flatMap of empty lists is empty. -/
theorem flatMap_const_nil {α β : Type} (l : List α) :
    (l.flatMap fun _ => ([] : List β)) = [] := by
  induction l with
  | nil => rfl
  | cons x xs ih => simp [List.flatMap_cons, ih]

/-- flatMap respects pointwise equality on the list's members. -/
theorem flatMap_congr_mem {α β : Type} {l : List α} {f g : α → List β}
    (h : ∀ x ∈ l, f x = g x) : l.flatMap f = l.flatMap g := by
  induction l with
  | nil => rfl
  | cons x xs ih =>
    simp only [List.flatMap_cons]
    rw [h x (by simp), ih fun y hy => h y (by simp [hy])]

/-- C8 counterexample: on the invariant-satisfying minimum state of the 1×1×1
hexagon, `get_tiles` does not visit `k = c + 1` for classification, so its
output differs from the claim's reading (which classifies `k in 1..c+1`). -/
theorem get_tiles_claim_counterexample :
    LozengeTiling.Invariant 1 1 1 (LozengeTiling.min_max_states 1 1 1).1 ∧
    LozengeTiling.get_tiles 1 1 1 (LozengeTiling.min_max_states 1 1 1).1 ≠
      LozengeTiling.get_tiles_claim 1 1 1 (LozengeTiling.min_max_states 1 1 1).1 := by
  decide

/-- C8 amended: for every state, `get_tiles` classifies the pairs
`(k in 1..c, j in 1..a+b)` into "L" or "R" by whether `s k j = s k (j-1)`,
and appends one vertical lozenge per level strictly between `s k j` and
`s (k+1) j` for every `k in 0..c`. -/
theorem get_tiles_eq_amended (a b c : Nat) (s : State) :
    LozengeTiling.get_tiles a b c s = LozengeTiling.get_tiles_amended a b c s := by
  have hrange : List.range (c + 1) = 0 :: List.range' 1 c := by
    rw [List.range_eq_range', List.range'_succ]
  simp only [LozengeTiling.get_tiles, LozengeTiling.get_tiles_amended,
    LozengeTiling.Tiles.mk.injEq]
  refine ⟨?_, ?_, trivial⟩
  · rw [hrange, List.flatMap_cons]
    simp only [lt_self_iff_false, false_and, if_false, flatMap_const_nil, List.nil_append]
    exact flatMap_congr_mem fun k hk =>
      flatMap_congr_mem fun j hj =>
        if_congr (and_iff_right (List.mem_range'_1.mp hk).1) rfl rfl
  · rw [hrange, List.flatMap_cons]
    simp only [lt_self_iff_false, false_and, if_false, flatMap_const_nil, List.nil_append]
    exact flatMap_congr_mem fun k hk =>
      flatMap_congr_mem fun j hj =>
        if_congr (and_iff_right (List.mem_range'_1.mp hk).1) rfl rfl

/-- The doubling schedule's step counts sum to `2 ^ n - 1`. -/
theorem powersDesc_sum (n : Nat) : (powersDesc n).sum = 2 ^ n - 1 := by
  induction n with
  | zero => rfl
  | succ n ih =>
    rw [show powersDesc (n + 1) = 2 ^ n :: powersDesc n from by
      simp [powersDesc, List.range_succ]]
    rw [List.sum_cons, ih]
    have h1 := Nat.two_pow_pos n
    rw [pow_succ]
    omega

/-- C4 amended: when the replayed min- and max-trajectories compare unequal,
`run_cftp`'s loop prepends, before all existing epochs, a new epoch whose
snapshot is the saved resume point `r` and whose step count is
`2 ^ (number of existing epochs)` — one more than the total steps across the
existing epochs when their counts follow the schedule — so the successively
prepended step counts are 1, 2, 4, 8, …. -/
theorem cftp_prepend {S U R : Type} [DecidableEq S] (mc : MarkovChain S U R)
    (fuel : Nat) (updates : List (R × Nat)) (s0 s1 : S) (r : R)
    (hrep : replayEpochs mc updates (mc.min_max_states.1, mc.min_max_states.2, none) =
      (s0, s1, some r))
    (hne : s0 ≠ s1) :
    cftpLoop mc (fuel + 1) updates =
      cftpLoop mc fuel ((r, 2 ^ updates.length) :: updates) ∧
    (updates.map Prod.snd = powersDesc updates.length →
      ((r, 2 ^ updates.length) :: updates).map Prod.snd =
        powersDesc (updates.length + 1)) ∧
    (updates.map Prod.snd = powersDesc updates.length →
      2 ^ updates.length = totalSteps updates + 1) := by
  refine ⟨?_, ?_, ?_⟩
  · simp only [cftpLoop]
    rw [hrep]
    simp [hne]
  · intro hshape
    simp only [List.map_cons, hshape]
    simp [powersDesc, List.range_succ]
  · intro hshape
    have h := powersDesc_sum updates.length
    have h2 : totalSteps updates = (powersDesc updates.length).sum := by
      rw [totalSteps, hshape]
    have h3 := Nat.two_pow_pos updates.length
    omega

/-- C4 counterexample: on a concrete monotone chain the driver and the
claimed doubled-total schedule produce observably different results: the
third prepended epoch gets `2 ^ 2 = 4` steps, not `2 * (2 + 1) = 6`, so the
resume snapshots differ. -/
theorem cftp_schedule_counterexample :
    run_cftp toyMC 3 0 = some (5, 7) ∧
    run_cftpClaim toyMC 3 0 = some (5, 9) ∧
    run_cftp toyMC 3 0 ≠ run_cftpClaim toyMC 3 0 := by
  decide

/-- Witness for C4 (amended) on the concrete chain `toyMC` with the initial
epoch list. -/
theorem cftp_prepend_witness :
    (cftpLoop toyMC 1 [((0 : Nat), 1)] =
      cftpLoop toyMC 0 [((1 : Nat), 2 ^ [((0 : Nat), 1)].length), (0, 1)]) ∧
    ([((0 : Nat), 1)].map Prod.snd = powersDesc [((0 : Nat), 1)].length →
      (((1 : Nat), 2 ^ [((0 : Nat), 1)].length) :: [((0 : Nat), 1)]).map Prod.snd =
        powersDesc ([((0 : Nat), 1)].length + 1)) ∧
    ([((0 : Nat), 1)].map Prod.snd = powersDesc [((0 : Nat), 1)].length →
      2 ^ [((0 : Nat), 1)].length = totalSteps [((0 : Nat), 1)] + 1) :=
  cftp_prepend toyMC 0 [(0, 1)] 1 5 1 (by decide) (by decide)
